import Mathlib

/-!
Verification of the NMR sample manager's schema migration engine and file
manager against its specification.

The schema migration engine (path resolver, operation executor, version
resolver, patch chain orchestrator) is shipped separately from the
application sources available here (`src/schemas/migration/schema_migrate.js`
is referenced by `FileManager.readSample` and by `SCHEMA_MIGRATION.md` but its
body is not in this tree), so the engine is modelled from the specification.
The `FileManager` operations (`readSample`, `writeSample`, `ejectSample`) are
embedded from `src/js/schema-handler.js`.
-/

/-- Modelled from the spec: a Document is "a tree of mappings (string keys),
ordered sequences, and scalar leaves (string, number, boolean, null)".
Numbers are modelled as integers; the migration engine never computes with
numbers, it only moves and compares them, and every numeric literal in the
shipped patch chain is integral (e.g. tube diameters 1.7 excepted, but no
claim depends on non-integral values). -/
inductive Json where
  | null
  | bool (b : Bool)
  | num (n : Int)
  | str (s : String)
  | arr (elems : List Json)
  | obj (members : List (String × Json))

mutual

/-- Literal (structural) equality test on documents, used by the `map`
operation's value-translation table lookup. -/
def Json.beq : Json → Json → Bool
  | .null, .null => true
  | .bool a, .bool b => a == b
  | .num a, .num b => a == b
  | .str a, .str b => a == b
  | .arr as, .arr bs => Json.beqList as bs
  | .obj as, .obj bs => Json.beqObj as bs
  | _, _ => false

def Json.beqList : List Json → List Json → Bool
  | [], [] => true
  | a :: as, b :: bs => Json.beq a b && Json.beqList as bs
  | _, _ => false

def Json.beqObj : List (String × Json) → List (String × Json) → Bool
  | [], [] => true
  | (k, a) :: as, (l, b) :: bs => k == l && Json.beq a b && Json.beqObj as bs
  | _, _ => false

end

/-- Look up a key in an object's member list (first occurrence). -/
def lookupField : List (String × Json) → String → Option Json
  | [], _ => none
  | (k, v) :: rest, s => if k = s then some v else lookupField rest s

/-- JavaScript-style field assignment on a member list: replaces the value in
place if the key is present, appends the new key at the end otherwise. -/
def setField : List (String × Json) → String → Json → List (String × Json)
  | [], s, w => [(s, w)]
  | (k, v) :: rest, s, w =>
      if k = s then (s, w) :: rest else (k, v) :: setField rest s w

/-- Remove a key from a member list (first occurrence; no-op if absent). -/
def removeField : List (String × Json) → String → List (String × Json)
  | [], _ => []
  | (k, v) :: rest, s => if k = s then rest else (k, v) :: removeField rest s

/-- Write `w` at index `n` of a sequence, padding with `null` if the sequence
is shorter (sequences are "created as needed" on writes). -/
def padSet : List Json → Nat → Json → List Json
  | [], 0, w => [w]
  | [], n + 1, w => .null :: padSet [] n w
  | _ :: xs, 0, w => w :: xs
  | x :: xs, n + 1, w => x :: padSet xs n w

/-- Numeric value of a decimal digit character, if any. -/
def digitVal (c : Char) : Option Nat :=
  if '0' ≤ c ∧ c ≤ '9' then some (c.toNat - '0'.toNat) else none

/-- Accumulate the decimal value of a digit string. -/
def parseIndexAux : Nat → List Char → Option Nat
  | acc, [] => some acc
  | acc, c :: cs =>
      match digitVal c with
      | none => none
      | some d => parseIndexAux (acc * 10 + d) cs

/-- Parse a path segment as a sequence index: all-decimal-digit, non-empty.
Path segments that target a sequence index must be numeric. -/
def parseIndex (s : String) : Option Nat :=
  match s.data with
  | [] => none
  | c :: cs => parseIndexAux 0 (c :: cs)

/-- Modelled from the spec: the error taxonomy of the migration engine
(`PathConflict`, `NoMigrationPath`, `MigrationCycleDetected`). -/
inductive MigError where
  | PathConflict
  | NoMigrationPath
  | MigrationCycleDetected
deriving DecidableEq

/-- Modelled from the spec: Path Resolver `get(doc, path) -> value | absent`.
Resolution against a present non-container at a non-final segment is a
`PathConflict`, as is a non-numeric segment targeting a sequence index;
a merely-absent key or index yields `absent` (`none`). -/
def pathGet : Json → List String → Except MigError (Option Json)
  | d, [] => .ok (some d)
  | .obj fs, s :: rest =>
      match lookupField fs s with
      | none => .ok none
      | some v => pathGet v rest
  | .arr xs, s :: rest =>
      match parseIndex s with
      | none => .error .PathConflict
      | some n =>
          match xs.get? n with
          | none => .ok none
          | some v => pathGet v rest
  | _, _ :: _ => .error .PathConflict

/-- Modelled from the spec: Path Resolver `set(doc, path, value)`; creates
intermediate mappings/sequences as needed and overwrites the final segment.
Same conflict policy as `pathGet`. -/
def pathSet : Json → List String → Json → Except MigError Json
  | _, [], v => .ok v
  | .obj fs, s :: rest, v =>
      match lookupField fs s with
      | some old =>
          match pathSet old rest v with
          | .error e => .error e
          | .ok w => .ok (.obj (setField fs s w))
      | none =>
          match pathSet (.obj []) rest v with
          | .error e => .error e
          | .ok w => .ok (.obj (setField fs s w))
  | .arr xs, s :: rest, v =>
      match parseIndex s with
      | none => .error .PathConflict
      | some n =>
          match pathSet ((xs.get? n).getD (.obj [])) rest v with
          | .error e => .error e
          | .ok w => .ok (.arr (padSet xs n w))
  | _, _ :: _, _ => .error .PathConflict

/-- Modelled from the spec: Path Resolver `delete(doc, path)`; removes the
final segment if present, no-op otherwise. Same conflict policy. -/
def pathDelete : Json → List String → Except MigError Json
  | d, [] => .ok d
  | .obj fs, [s] => .ok (.obj (removeField fs s))
  | .obj fs, s :: r :: rest =>
      match lookupField fs s with
      | none => .ok (.obj fs)
      | some v =>
          match pathDelete v (r :: rest) with
          | .error e => .error e
          | .ok w => .ok (.obj (setField fs s w))
  | .arr xs, [s] =>
      match parseIndex s with
      | none => .error .PathConflict
      | some n => .ok (.arr (xs.eraseIdx n))
  | .arr xs, s :: r :: rest =>
      match parseIndex s with
      | none => .error .PathConflict
      | some n =>
          match xs.get? n with
          | none => .ok (.arr xs)
          | some v =>
              match pathDelete v (r :: rest) with
              | .error e => .error e
              | .ok w => .ok (.arr (xs.set n w))
  | _, _ :: _ => .error .PathConflict

/-- Modelled from the spec: Operations are "a tagged variant over five kinds —
rename_key, move, map, remove, set". `map` carries a finite value-translation
table. -/
inductive Op where
  | rename_key (path : List String) (key : String)
  | move (path dest : List String)
  | map (path : List String) (table : List (Json × Json))
  | remove (path : List String)
  | set (path : List String) (value : Json)

/-- Look up a value in a `map` operation's translation table by literal
match. -/
def lookupTable : List (Json × Json) → Json → Option Json
  | [], _ => none
  | (a, b) :: rest, v => if Json.beq a v then some b else lookupTable rest v

/-- Modelled from the spec: Operation Executor `apply(doc, operation)`.
Absent source paths make rename_key/move/map/remove a no-op; `map` leaves
non-matching values unchanged; `set` writes unconditionally. -/
def applyOp (d : Json) : Op → Except MigError Json
  | .rename_key path key =>
      match pathGet d path with
      | .error e => .error e
      | .ok none => .ok d
      | .ok (some v) =>
          match pathDelete d path with
          | .error e => .error e
          | .ok d1 => pathSet d1 (path.dropLast ++ [key]) v
  | .move path dest =>
      match pathGet d path with
      | .error e => .error e
      | .ok none => .ok d
      | .ok (some v) =>
          match pathDelete d path with
          | .error e => .error e
          | .ok d1 => pathSet d1 dest v
  | .map path table =>
      match pathGet d path with
      | .error e => .error e
      | .ok none => .ok d
      | .ok (some v) =>
          match lookupTable table v with
          | none => .ok d
          | some w => pathSet d path w
  | .remove path => pathDelete d path
  | .set path v => pathSet d path v

/-- Apply a patch's operation list in order, aborting on the first error. -/
def applyOps : List Op → Json → Except MigError Json
  | [], d => .ok d
  | op :: rest, d =>
      match applyOp d op with
      | .error e => .error e
      | .ok d1 => applyOps rest d1

/-- Modelled from the spec: a Patch is "an ordered list of Operations, tagged
with a source version and a target version". -/
structure Patch where
  source : String
  target : String
  ops : List Op

/-- Static migration configuration: the patch list, the current version, and
the earliest supported legacy version (the default for untagged documents). -/
structure Config where
  patches : List Patch
  current : String
  legacy : String

/-- Find the patch whose source version equals `v` (first match). -/
def findPatch : List Patch → String → Option Patch
  | [], _ => none
  | p :: rest, v => if p.source = v then some p else findPatch rest v

/-- The fixed, schema-stable location of the Version Tag. -/
def versionPath : List String := ["metadata", "schema_version"]

/-- Modelled from the spec: Version Resolver `getVersion(doc)`; a Document
with no discoverable Version Tag is treated as the earliest supported legacy
version. -/
def getVersion (legacy : String) (d : Json) : String :=
  match pathGet d versionPath with
  | .ok (some (.str v)) => v
  | _ => legacy

/-- Modelled from the spec: Version Resolver `setVersion(doc, version)`. -/
def setVersion (d : Json) (v : String) : Except MigError Json :=
  pathSet d versionPath (.str v)

/-- Modelled from the spec: the Patch Chain Orchestrator's loop. While the
tracked version differs from the current version: find the patch sourced at
it (else `NoMigrationPath`), apply its operations in order, stamp the target
version into the document, continue. Iterations are capped by `fuel`; running
out is `MigrationCycleDetected`. Returns the migrated document together with
the number of iterations performed. -/
def migrateFrom (cfg : Config) : Nat → String → Json → Except MigError (Json × Nat)
  | fuel, v, d =>
    if v = cfg.current then .ok (d, 0)
    else
      match findPatch cfg.patches v with
      | none => .error .NoMigrationPath
      | some p =>
          match fuel with
          | 0 => .error .MigrationCycleDetected
          | fuel' + 1 =>
              match applyOps p.ops d with
              | .error e => .error e
              | .ok d1 =>
                  match setVersion d1 p.target with
                  | .error e => .error e
                  | .ok d2 =>
                      match migrateFrom cfg fuel' p.target d2 with
                      | .error e => .error e
                      | .ok (d3, k) => .ok (d3, k + 1)

/-- Run the orchestrator from the document's declared version, with the
iteration cap set to the number of configured patches. -/
def migrateRun (cfg : Config) (d : Json) : Except MigError (Json × Nat) :=
  migrateFrom cfg cfg.patches.length (getVersion cfg.legacy d) d

/-- Modelled from the spec: `migrate(doc, patches) -> doc`
(`updateToLatestSchema` in the application). -/
def migrate (cfg : Config) (d : Json) : Except MigError Json :=
  Except.map Prod.fst (migrateRun cfg d)

/-- Modelled from the spec: the length of the patch chain from version `v` to
the current version (number of patch applications), following the unique
patch sourced at each intermediate version; `none` if the chain does not
reach the current version within `fuel` steps. -/
def chainLength (patches : List Patch) (current : String) : Nat → String → Option Nat
  | fuel, v =>
    if v = current then some 0
    else
      match findPatch patches v with
      | none => none
      | some p =>
          match fuel with
          | 0 => none
          | fuel' + 1 =>
              match chainLength patches current fuel' p.target with
              | none => none
              | some k => some (k + 1)

/-- The concrete migration chain of the specification's scenario:
`0.0.2 → 0.0.3` (`rename_key /Sample -> sample`) then `0.0.3 → 0.1.0`
(`move /sample/Label -> /sample/label`, `set /sample/physical_form -> ""`). -/
def testCfg : Config :=
  { patches :=
      [ { source := "0.0.2", target := "0.0.3",
          ops := [.rename_key ["Sample"] "sample"] },
        { source := "0.0.3", target := "0.1.0",
          ops := [.move ["sample", "Label"] ["sample", "label"],
                  .set ["sample", "physical_form"] (.str "")] } ],
    current := "0.1.0",
    legacy := "0.0.2" }

/-- The scenario's input document
`{ "Sample": { "Label": "X" }, "Metadata": { "schema_version": "0.0.2" } }`. -/
def c2doc : Json :=
  .obj [("Sample", .obj [("Label", .str "X")]),
        ("Metadata", .obj [("schema_version", .str "0.0.2")])]

/-- The output the specification's scenario claims for `c2doc`. -/
def c2claimed : Json :=
  .obj [("sample", .obj [("label", .str "X"), ("physical_form", .str "")]),
        ("metadata", .obj [("schema_version", .str "0.1.0")])]

/-- The output the modelled engine actually produces for `c2doc`: the legacy
`Metadata` block is retained, since no operation in the scenario's chain
renames or removes it. -/
def c2actual : Json :=
  .obj [("Metadata", .obj [("schema_version", .str "0.0.2")]),
        ("sample", .obj [("label", .str "X"), ("physical_form", .str "")]),
        ("metadata", .obj [("schema_version", .str "0.1.0")])]

/-! ## FileManager (embedded from `src/js/schema-handler.js`) -/

/-- JavaScript truthiness of a possibly-absent value (`undefined`, `null`,
`false`, `0` and `""` are falsy; objects and arrays are truthy). -/
def truthy : Option Json → Bool
  | none => false
  | some .null => false
  | some (.bool b) => b
  | some (.num n) => decide (n ≠ 0)
  | some (.str s) => decide (s ≠ "")
  | some (.arr _) => true
  | some (.obj _) => true

/-- Property read `d.k` (absent unless `d` is an object holding `k`). -/
def jget (d : Json) (k : String) : Option Json :=
  match d with
  | .obj fs => lookupField fs k
  | _ => none

/-- Nested property read `d.k1.k2`. -/
def jget2 (d : Json) (k1 k2 : String) : Option Json :=
  match jget d k1 with
  | some (.obj fs) => lookupField fs k2
  | _ => none

/-- Failure modes of the modelled FileManager operations. -/
inductive FMError where
  | fileNotFound
  | migrationFailed
  | typeError
deriving DecidableEq

/-- FileManager state: the directory's sample files (filename to parsed
document) and the loaded migrations (`this._migrations`), if any. -/
structure FMState where
  files : List (String × Json)
  migrations : Option Config

/-- `FileManager.readSample`: look the file up in the cache, parse it, and
migrate it to the current schema when migrations are loaded
(`schema-handler.js` lines 507-525). -/
def readSample (st : FMState) (name : String) : Except FMError Json :=
  match lookupField st.files name with
  | none => .error .fileNotFound
  | some d =>
      match st.migrations with
      | none => .ok d
      | some cfg =>
          match migrate cfg d with
          | .error _ => .error .migrationFailed
          | .ok d1 => .ok d1

/-- `if (!data.metadata) data.metadata = {}` from `writeSample` and
`ejectSample`: replace a falsy `metadata` with an empty object. Assignment on
a non-object document is a `TypeError` (strict-mode JavaScript). -/
def ensureMetadata (d : Json) : Except FMError Json :=
  if truthy (jget d "metadata") then .ok d
  else
    match d with
    | .obj fs => .ok (.obj (setField fs "metadata" (.obj [])))
    | _ => .error .typeError

/-- Property assignment `d.metadata.k = v`; a `TypeError` unless `metadata`
is an object. -/
def metaSet (d : Json) (k : String) (v : Json) : Except FMError Json :=
  match d with
  | .obj fs =>
      match lookupField fs "metadata" with
      | some (.obj ms) => .ok (.obj (setField fs "metadata" (.obj (setField ms k v))))
      | _ => .error .typeError
  | _ => .error .typeError

/-- The metadata stamping performed by `FileManager.writeSample` before
serializing (`schema-handler.js` lines 543-553): ensure `metadata`, set
`created_timestamp` to `now` when falsy, then unconditionally set
`modified_timestamp` to `now` and `schema_version` to `"0.1.0"`. -/
def writeSampleDoc (now : String) (data : Json) : Except FMError Json :=
  match ensureMetadata data with
  | .error e => .error e
  | .ok d0 =>
      match (if truthy (jget2 d0 "metadata" "created_timestamp") then .ok d0
             else metaSet d0 "created_timestamp" (.str now) : Except FMError Json) with
      | .error e => .error e
      | .ok d1 =>
          match metaSet d1 "modified_timestamp" (.str now) with
          | .error e => .error e
          | .ok d2 => metaSet d2 "schema_version" (.str "0.1.0")

/-- `FileManager.writeSample` (`schema-handler.js` lines 537-575): stamp the
metadata and store the document under `filename`. -/
def writeSample (st : FMState) (name : String) (data : Json) (now : String) :
    Except FMError FMState :=
  match writeSampleDoc now data with
  | .error e => .error e
  | .ok d => .ok { st with files := setField st.files name d }

/-- `FileManager.ejectSample` (`schema-handler.js` lines 614-635): read the
sample, ensure `metadata`, and if `ejected_timestamp` is already truthy
return `true` without writing; otherwise stamp `ejected_timestamp` and write
the file back. -/
def ejectSample (st : FMState) (name now : String) :
    Except FMError (FMState × Bool) :=
  match readSample st name with
  | .error e => .error e
  | .ok data =>
      match ensureMetadata data with
      | .error e => .error e
      | .ok d0 =>
          if truthy (jget2 d0 "metadata" "ejected_timestamp") then .ok (st, true)
          else
            match metaSet d0 "ejected_timestamp" (.str now) with
            | .error e => .error e
            | .ok d1 =>
                match writeSample st name d1 now with
                | .error e => .error e
                | .ok st1 => .ok (st1, true)

/-! ## Concrete fixtures used by the claim theorems -/

/-- The `map /nmr_tube/diameter` value-translation table of the scenario. -/
def diamTbl : List (Json × Json) := [(.str "5 mm", .num 5)]

/-- A document with the legacy string diameter `"5 mm"`. -/
def diamStrDoc : Json := .obj [("nmr_tube", .obj [("diameter", .str "5 mm")])]

/-- A document already holding the numeric diameter. -/
def diamNumDoc : Json := .obj [("nmr_tube", .obj [("diameter", .num 5)])]

/-- Result of migrating the empty document: the set-defaulted field plus the
version tag stamped by the orchestrator. -/
def minResult : Json :=
  .obj [("metadata", .obj [("schema_version", .str "0.1.0")]),
        ("sample", .obj [("physical_form", .str "")])]

/-- A document whose key `a` holds a scalar: descending through it is a
path conflict. -/
def conflictScalarDoc : Json := .obj [("a", .num 5)]

/-- A document whose key `xs` holds a sequence: a non-numeric segment
targeting it is a path conflict. -/
def conflictArrDoc : Json := .obj [("xs", .arr [.num 1])]

/-- A deliberately cyclic patch configuration (`a → b → a`, current `c`). -/
def cycleCfg : Config :=
  { patches := [{ source := "a", target := "b", ops := [] },
                { source := "b", target := "a", ops := [] }],
    current := "c", legacy := "a" }

/-- Already-current document used in the idempotence witness. -/
def docCurrent : Json := .obj [("metadata", .obj [("schema_version", .str "0.1.0")])]

/-- A sample document that has already been ejected. -/
def ejectedDoc : Json := .obj [("metadata", .obj [("ejected_timestamp", .str "T0")])]

/-- A directory state holding one already-ejected sample, with no migrations
loaded. -/
def ejectedSt : FMState := { files := [("f.json", ejectedDoc)], migrations := none }

/-- A document whose `created_timestamp` is present but empty (falsy). -/
def blankCreatedDoc : Json := .obj [("metadata", .obj [("created_timestamp", .str "")])]

/-- What `writeSample` stamps `blankCreatedDoc` into: the empty
`created_timestamp` is overwritten with the write time. -/
def stampedBlankDoc : Json :=
  .obj [("metadata", .obj [("created_timestamp", .str "T1"),
                           ("modified_timestamp", .str "T1"),
                           ("schema_version", .str "0.1.0")])]

/-- An empty directory state with no migrations loaded. -/
def wsState : FMState := { files := [], migrations := none }

/-- A document carrying an old schema_version and a truthy
created_timestamp, used in the writeSample witness. -/
def c10doc : Json :=
  .obj [("metadata", .obj [("created_timestamp", .str "T0"),
                           ("schema_version", .str "0.0.2")])]

/-- The state produced by writing `c10doc` at time "T5": created_timestamp
preserved, modified_timestamp appended, schema_version restamped in place. -/
def c10st1 : FMState :=
  { files := [("g.json",
      .obj [("metadata", .obj [("created_timestamp", .str "T0"),
                               ("schema_version", .str "0.1.0"),
                               ("modified_timestamp", .str "T5")])])],
    migrations := none }

/-! ## Helper lemmas about fields, sequences and the path resolver -/

theorem lookupField_setField (fs : List (String × Json)) (s : String) (w : Json) :
    lookupField (setField fs s w) s = some w := by
  induction fs with
  | nil => simp [setField, lookupField]
  | cons kv rest ih =>
      obtain ⟨k, v⟩ := kv
      by_cases h : k = s
      · simp [setField, lookupField, h]
      · simp [setField, lookupField, h, ih]

theorem lookupField_setField_ne (fs : List (String × Json)) (s k : String) (w : Json)
    (hne : k ≠ s) : lookupField (setField fs s w) k = lookupField fs k := by
  induction fs with
  | nil => simp [setField, lookupField, Ne.symm hne]
  | cons kv rest ih =>
      obtain ⟨k1, v⟩ := kv
      by_cases h : k1 = s
      · subst h
        simp [setField, lookupField, Ne.symm hne]
      · simp [setField, lookupField, h, ih]

theorem removeField_lookup_none (fs : List (String × Json)) (s : String)
    (h : lookupField fs s = none) : removeField fs s = fs := by
  induction fs with
  | nil => simp [removeField]
  | cons kv rest ih =>
      obtain ⟨k, v⟩ := kv
      by_cases hk : k = s
      · simp [lookupField, hk] at h
      · simp [lookupField, hk] at h
        simp [removeField, hk, ih h]

theorem setField_lookup_self (fs : List (String × Json)) (s : String) (v : Json)
    (h : lookupField fs s = some v) : setField fs s v = fs := by
  induction fs with
  | nil => simp [lookupField] at h
  | cons kv rest ih =>
      obtain ⟨k, w⟩ := kv
      by_cases hk : k = s
      · subst hk
        simp [lookupField] at h
        simp [setField, h]
      · simp [lookupField, hk] at h
        simp [setField, hk, ih h]

theorem padSet_get (w : Json) : ∀ (n : Nat) (xs : List Json),
    (padSet xs n w).get? n = some w := by
  intro n
  induction n with
  | zero => intro xs; cases xs <;> simp [padSet]
  | succ n ih => intro xs; cases xs <;> simpa [padSet] using ih _

theorem eraseIdx_length_le : ∀ (xs : List Json) (n : Nat),
    xs.length ≤ n → xs.eraseIdx n = xs := by
  intro xs
  induction xs with
  | nil => intro n _; cases n <;> simp [List.eraseIdx]
  | cons x rest ih =>
      intro n h
      cases n with
      | zero => simp at h
      | succ n => simp [List.eraseIdx, ih n (by simpa using h)]

theorem set_get_self : ∀ (xs : List Json) (n : Nat) (v : Json),
    xs.get? n = some v → xs.set n v = xs := by
  intro xs
  induction xs with
  | nil => intro n v h; simp at h
  | cons x rest ih =>
      intro n v h
      cases n with
      | zero => simp at h; simp [List.set, h]
      | succ n =>
          simp only [List.get?_cons_succ] at h
          simp [List.set, ih n v h]

theorem pathGet_nil (d : Json) : pathGet d [] = .ok (some d) := by
  cases d <;> rfl

theorem pathSet_nil (d v : Json) : pathSet d [] v = .ok v := by
  cases d <;> rfl

theorem pathDelete_nil (d : Json) : pathDelete d [] = .ok d := by
  cases d <;> rfl

/-- Writing a value at a path makes it readable at that path
("overwrites the final segment", "creates intermediate mappings/sequences
as needed"). -/
theorem pathGet_pathSet (p : List String) : ∀ (d v d' : Json),
    pathSet d p v = .ok d' → pathGet d' p = .ok (some v) := by
  induction p with
  | nil =>
      intro d v d' h
      rw [pathSet_nil] at h
      cases h
      exact pathGet_nil v
  | cons s rest ih =>
      intro d v d' h
      cases d with
      | obj fs =>
          simp only [pathSet] at h
          split at h
          next old hl =>
            split at h
            next e he => simp at h
            next w hw =>
              cases h
              simp only [pathGet, lookupField_setField]
              exact ih old v w hw
          next hl =>
            split at h
            next e he => simp at h
            next w hw =>
              cases h
              simp only [pathGet, lookupField_setField]
              exact ih _ v w hw
      | arr xs =>
          simp only [pathSet] at h
          split at h
          next hn => simp at h
          next n hn =>
            split at h
            next e he => simp at h
            next w hw =>
              cases h
              simp only [pathGet, hn, padSet_get]
              exact ih _ v w hw
      | null => simp [pathSet] at h
      | bool b => simp [pathSet] at h
      | num n => simp [pathSet] at h
      | str t => simp [pathSet] at h

/-- Stamping a version makes it the document's discoverable version. -/
theorem getVersion_setVersion (legacy : String) (d : Json) (t : String) (d' : Json)
    (h : setVersion d t = .ok d') : getVersion legacy d' = t := by
  unfold setVersion at h
  have hg := pathGet_pathSet versionPath d (.str t) d' h
  simp [getVersion, hg]

/-- The orchestrator's loop invariant: the tracked version always equals the
document's discoverable version, so a successful run ends at the current
version. -/
theorem migrateFrom_ok_getVersion (cfg : Config) :
    ∀ (fuel : Nat) (v : String) (d d' : Json) (k : Nat),
      getVersion cfg.legacy d = v →
      migrateFrom cfg fuel v d = .ok (d', k) →
      getVersion cfg.legacy d' = cfg.current := by
  intro fuel
  induction fuel with
  | zero =>
      intro v d d' k hv h
      unfold migrateFrom at h
      split at h
      next hvc =>
        cases h
        rw [hv, hvc]
      next hvc =>
        cases hp : findPatch cfg.patches v with
        | none => simp only [hp] at h; exact Except.noConfusion h
        | some p => simp only [hp] at h; exact Except.noConfusion h
  | succ fuel ih =>
      intro v d d' k hv h
      unfold migrateFrom at h
      split at h
      next hvc =>
        cases h
        rw [hv, hvc]
      next hvc =>
        cases hp : findPatch cfg.patches v with
        | none => simp only [hp] at h; exact Except.noConfusion h
        | some p =>
            simp only [hp] at h
            cases h1 : applyOps p.ops d with
            | error e => simp only [h1] at h; exact Except.noConfusion h
            | ok d1 =>
                simp only [h1] at h
                cases h2 : setVersion d1 p.target with
                | error e => simp only [h2] at h; exact Except.noConfusion h
                | ok d2 =>
                    simp only [h2] at h
                    cases h3 : migrateFrom cfg fuel p.target d2 with
                    | error e => simp only [h3] at h; exact Except.noConfusion h
                    | ok pr =>
                        obtain ⟨d3, k3⟩ := pr
                        simp only [h3] at h
                        cases h
                        exact ih p.target d2 _ _
                          (getVersion_setVersion cfg.legacy d1 p.target d2 h2) h3

/-- A successful migration leaves the document at the current version. -/
theorem migrate_ok_getVersion (cfg : Config) (d d' : Json)
    (h : migrate cfg d = .ok d') : getVersion cfg.legacy d' = cfg.current := by
  unfold migrate migrateRun at h
  cases hm : migrateFrom cfg cfg.patches.length (getVersion cfg.legacy d) d with
  | error e => rw [hm] at h; simp [Except.map] at h
  | ok pr =>
      obtain ⟨d1, k⟩ := pr
      rw [hm] at h
      simp only [Except.map] at h
      cases h
      exact migrateFrom_ok_getVersion cfg cfg.patches.length _ d d' k rfl hm

/-! ## Claim theorems -/

/-- C1: Migration is idempotent: for every Document `d`,
`migrate (migrate d)` equals `migrate d` (composition in the error monad);
in particular, migrating a Document whose version tag already equals the
current version performs zero loop iterations and returns the Document
unchanged (the application relies on this by re-running migration on every
load in `FileManager.readSample`). -/
theorem migrate_idempotent (cfg : Config) (d : Json) :
    Except.bind (migrate cfg d) (migrate cfg) = migrate cfg d ∧
    (getVersion cfg.legacy d = cfg.current →
      migrateRun cfg d = .ok (d, 0) ∧ migrate cfg d = .ok d) := by
  constructor
  · cases hm : migrate cfg d with
    | error e => rfl
    | ok d1 =>
        have hv := migrate_ok_getVersion cfg d d1 hm
        show migrate cfg d1 = .ok d1
        unfold migrate migrateRun
        unfold migrateFrom
        rw [hv]
        simp [Except.map]
  · intro hv
    have hrun : migrateRun cfg d = .ok (d, 0) := by
      unfold migrateRun
      unfold migrateFrom
      rw [hv]
      simp
    refine ⟨hrun, ?_⟩
    unfold migrate
    rw [hrun]
    rfl

/-- Witness for C1: the idempotence theorem applied at the concrete chain
`testCfg` and an already-current document, with the hypothesis discharged by
evaluation. -/
theorem migrate_idempotent_witness :
    migrateRun testCfg docCurrent = .ok (docCurrent, 0) ∧
    migrate testCfg docCurrent = .ok docCurrent :=
  (migrate_idempotent testCfg docCurrent).2 rfl

/-- Concrete disequality of documents via the computable comparison. -/
theorem Json.ne_of_beq_false (a b : Json) (h : Json.beq a b = false)
    (hb : Json.beq b b = true) : a ≠ b := fun he => by
  rw [he, hb] at h
  exact Bool.noConfusion h

/-- C2 counterexample: migrating the scenario's document does not produce the
claimed output. The legacy `Metadata` block is retained (no listed operation
renames or removes it, and the version stamp targets the lowercase
`metadata` location), so the result carries a `Metadata` key the claimed
output lacks. -/
theorem c2_scenario_counterexample :
    migrate testCfg c2doc = .ok c2actual ∧
    jget c2actual "Metadata" = some (.obj [("schema_version", .str "0.0.2")]) ∧
    jget c2claimed "Metadata" = none ∧
    migrate testCfg c2doc ≠ .ok c2claimed := by
  refine ⟨rfl, rfl, rfl, ?_⟩
  intro h
  rw [show migrate testCfg c2doc = .ok c2actual from rfl] at h
  exact Json.ne_of_beq_false c2actual c2claimed rfl rfl (Except.ok.inj h)

/-- C2 (amended): migrating
`{ "Sample": { "Label": "X" }, "Metadata": { "schema_version": "0.0.2" } }`
through the chain `0.0.2→0.0.3` (`rename_key /Sample -> sample`) then
`0.0.3→0.1.0` (`move /sample/Label -> /sample/label`,
`set /sample/physical_form -> ""`) yields exactly
`{ "Metadata": { "schema_version": "0.0.2" },
   "sample": { "label": "X", "physical_form": "" },
   "metadata": { "schema_version": "0.1.0" } }` — the claimed output plus the
retained legacy `Metadata` block. -/
theorem c2_scenario_amended : migrate testCfg c2doc = .ok c2actual := rfl

/-- C3: the `map` operation replaces a value only on a literal match in its
finite translation table and leaves any non-matching value unchanged rather
than raising; concretely, `map /nmr_tube/diameter {"5 mm": 5.0}` turns a
`"5 mm"` diameter into `5.0`, and leaves a document already holding the
numeric diameter unchanged. -/
theorem map_literal_match (d : Json) (p : List String) (tbl : List (Json × Json)) (v : Json)
    (h1 : pathGet d p = .ok (some v)) (h2 : lookupTable tbl v = none) :
    applyOp d (.map p tbl) = .ok d ∧
    applyOp diamStrDoc (.map ["nmr_tube", "diameter"] diamTbl) = .ok diamNumDoc ∧
    applyOp diamNumDoc (.map ["nmr_tube", "diameter"] diamTbl) = .ok diamNumDoc := by
  refine ⟨?_, rfl, rfl⟩
  simp only [applyOp, h1, h2]

/-- Witness for C3: the theorem applied at the already-migrated document,
whose numeric diameter matches no table entry. -/
theorem map_literal_match_witness :
    applyOp diamNumDoc (.map ["nmr_tube", "diameter"] diamTbl) = .ok diamNumDoc :=
  (map_literal_match diamNumDoc ["nmr_tube", "diameter"] diamTbl (.num 5) rfl rfl).1

/-- A `none` lookup means the index is out of range. -/
theorem get_none_length_le : ∀ (xs : List Json) (n : Nat),
    xs.get? n = none → xs.length ≤ n := by
  intro xs
  induction xs with
  | nil => intro n _; simp
  | cons x rest ih =>
      intro n h
      cases n with
      | zero => simp at h
      | succ n =>
          simp only [List.get?_cons_succ] at h
          simpa using ih n h

/-- Deleting an absent path is a no-op that raises no error. -/
theorem pathDelete_pathGet_none (p : List String) : ∀ (d : Json),
    pathGet d p = .ok none → pathDelete d p = .ok d := by
  induction p with
  | nil => intro d h; rw [pathGet_nil] at h; simp at h
  | cons s rest ih =>
      intro d h
      cases d with
      | obj fs =>
          simp only [pathGet] at h
          cases hl : lookupField fs s with
          | none =>
              cases rest with
              | nil =>
                  simp only [pathDelete]
                  rw [removeField_lookup_none fs s hl]
              | cons r rest' => simp only [pathDelete, hl]
          | some v =>
              simp only [hl] at h
              cases rest with
              | nil => rw [pathGet_nil] at h; simp at h
              | cons r rest' =>
                  simp only [pathDelete, hl, ih v h]
                  rw [setField_lookup_self fs s v hl]
      | arr xs =>
          simp only [pathGet] at h
          cases hn : parseIndex s with
          | none => simp only [hn] at h; exact Except.noConfusion h
          | some n =>
              simp only [hn] at h
              cases hg : xs.get? n with
              | none =>
                  cases rest with
                  | nil =>
                      simp only [pathDelete, hn]
                      rw [eraseIdx_length_le xs n (get_none_length_le xs n hg)]
                  | cons r rest' => simp only [pathDelete, hn, hg]
              | some v =>
                  simp only [hg] at h
                  cases rest with
                  | nil => rw [pathGet_nil] at h; simp at h
                  | cons r rest' =>
                      simp only [pathDelete, hn, hg, ih v h]
                      rw [set_get_self xs n v hg]
      | null => simp [pathGet] at h
      | bool b => simp [pathGet] at h
      | num n => simp [pathGet] at h
      | str t => simp [pathGet] at h

/-- C5: for every document, a rename_key, move, map, or remove operation
whose source path is absent is a no-op that raises no error; no operation of
the executor throws for merely-absent data. -/
theorem absent_source_noop (d : Json) (p dest : List String) (key : String)
    (tbl : List (Json × Json)) (h : pathGet d p = .ok none) :
    applyOp d (.rename_key p key) = .ok d ∧
    applyOp d (.move p dest) = .ok d ∧
    applyOp d (.map p tbl) = .ok d ∧
    applyOp d (.remove p) = .ok d := by
  refine ⟨?_, ?_, ?_, ?_⟩
  · simp only [applyOp, h]
  · simp only [applyOp, h]
  · simp only [applyOp, h]
  · simp only [applyOp]
    exact pathDelete_pathGet_none p d h

/-- Witness for C5: `remove /nmr_tube/samplejet_rack_position` on a document
lacking that key is a no-op. -/
theorem absent_source_noop_witness :
    applyOp diamNumDoc (.remove ["nmr_tube", "samplejet_rack_position"]) = .ok diamNumDoc :=
  (absent_source_noop diamNumDoc ["nmr_tube", "samplejet_rack_position"] [] "k" [] rfl).2.2.2

/-- A successful run's iteration count is exactly the patch chain's length
from the starting version, and is bounded by the fuel. -/
theorem migrateFrom_chainLength (cfg : Config) :
    ∀ (fuel : Nat) (v : String) (d d' : Json) (k : Nat),
      migrateFrom cfg fuel v d = .ok (d', k) →
      chainLength cfg.patches cfg.current fuel v = some k ∧ k ≤ fuel := by
  intro fuel
  induction fuel with
  | zero =>
      intro v d d' k h
      unfold migrateFrom at h
      split at h
      next hvc =>
        cases h
        constructor
        · unfold chainLength
          rw [if_pos hvc]
        · exact Nat.le_refl 0
      next hvc =>
        cases hp : findPatch cfg.patches v with
        | none => simp only [hp] at h; exact Except.noConfusion h
        | some p => simp only [hp] at h; exact Except.noConfusion h
  | succ fuel ih =>
      intro v d d' k h
      unfold migrateFrom at h
      split at h
      next hvc =>
        cases h
        constructor
        · unfold chainLength
          rw [if_pos hvc]
        · exact Nat.zero_le _
      next hvc =>
        cases hp : findPatch cfg.patches v with
        | none => simp only [hp] at h; exact Except.noConfusion h
        | some p =>
            simp only [hp] at h
            cases h1 : applyOps p.ops d with
            | error e => simp only [h1] at h; exact Except.noConfusion h
            | ok d1 =>
                simp only [h1] at h
                cases h2 : setVersion d1 p.target with
                | error e => simp only [h2] at h; exact Except.noConfusion h
                | ok d2 =>
                    simp only [h2] at h
                    cases h3 : migrateFrom cfg fuel p.target d2 with
                    | error e => simp only [h3] at h; exact Except.noConfusion h
                    | ok pr =>
                        obtain ⟨d3, k3⟩ := pr
                        simp only [h3] at h
                        cases h
                        obtain ⟨hc, hk⟩ := ih p.target d2 _ _ h3
                        constructor
                        · unfold chainLength
                          rw [if_neg hvc]
                          simp only [hp, hc]
                        · exact Nat.succ_le_succ hk

/-- C7: the orchestrator's loop over patches terminates for every input:
when it succeeds, its iteration count equals the chain length from the
document's starting version to the current version and is bounded by the
number of configured patches; a starting version with no applicable patch
fails with NoMigrationPath; a cyclic patch configuration exhausts the
iteration cap and fails with MigrationCycleDetected instead of looping
forever. -/
theorem migrate_termination (cfg : Config) (d : Json) :
    (∀ (d' : Json) (k : Nat), migrateRun cfg d = .ok (d', k) →
        chainLength cfg.patches cfg.current cfg.patches.length (getVersion cfg.legacy d)
          = some k ∧ k ≤ cfg.patches.length) ∧
    (getVersion cfg.legacy d ≠ cfg.current →
        findPatch cfg.patches (getVersion cfg.legacy d) = none →
        migrate cfg d = .error .NoMigrationPath) ∧
    migrate cycleCfg (.obj []) = .error .MigrationCycleDetected := by
  refine ⟨?_, ?_, rfl⟩
  · intro d' k h
    exact migrateFrom_chainLength cfg cfg.patches.length _ d d' k h
  · intro hne hp
    unfold migrate migrateRun
    unfold migrateFrom
    rw [if_neg hne, hp]
    rfl

/-- Witness for C7: the concrete two-patch chain migrates the scenario
document in exactly two iterations, and a document carrying an unknown
version fails with NoMigrationPath. -/
theorem migrate_termination_witness :
    (chainLength testCfg.patches testCfg.current testCfg.patches.length
        (getVersion testCfg.legacy c2doc) = some 2 ∧ 2 ≤ testCfg.patches.length) ∧
    migrate testCfg (.obj [("metadata", .obj [("schema_version", .str "9.9.9")])])
      = .error .NoMigrationPath :=
  ⟨(migrate_termination testCfg c2doc).1 c2actual 2 rfl,
   (migrate_termination testCfg
      (.obj [("metadata", .obj [("schema_version", .str "9.9.9")])])).2.1
      (by decide) rfl⟩

/-- C8: a Document with no discoverable Version Tag is treated as the
earliest supported legacy version rather than raising an error, so the
migration of untagged legacy documents starts from the beginning of the
patch chain. -/
theorem untagged_treated_as_legacy (cfg : Config) (d : Json)
    (h : ∀ s : String, pathGet d versionPath ≠ .ok (some (.str s))) :
    getVersion cfg.legacy d = cfg.legacy ∧
    migrate cfg d = Except.map Prod.fst
      (migrateFrom cfg cfg.patches.length cfg.legacy d) := by
  have hg : getVersion cfg.legacy d = cfg.legacy := by
    unfold getVersion
    split
    next v heq => exact absurd heq (h v)
    next => rfl
  refine ⟨hg, ?_⟩
  unfold migrate migrateRun
  rw [hg]

/-- Witness for C8: the empty document carries no version tag and is
migrated from the legacy version. -/
theorem untagged_treated_as_legacy_witness :
    getVersion testCfg.legacy (.obj []) = testCfg.legacy ∧
    migrate testCfg (.obj []) = Except.map Prod.fst
      (migrateFrom testCfg testCfg.patches.length testCfg.legacy (.obj [])) :=
  untagged_treated_as_legacy testCfg (.obj []) (fun s hc => by
    rw [show pathGet (.obj []) versionPath = .ok none from rfl] at hc
    exact Option.noConfusion (Except.ok.inj hc))

/-- The path resolver's only read error is PathConflict. -/
theorem pathGet_error (p : List String) : ∀ (d : Json) (e : MigError),
    pathGet d p = .error e → e = .PathConflict := by
  induction p with
  | nil => intro d e h; rw [pathGet_nil] at h; exact Except.noConfusion h
  | cons s rest ih =>
      intro d e h
      cases d with
      | obj fs =>
          simp only [pathGet] at h
          cases hl : lookupField fs s with
          | none => simp only [hl] at h; exact Except.noConfusion h
          | some v => simp only [hl] at h; exact ih v e h
      | arr xs =>
          simp only [pathGet] at h
          cases hn : parseIndex s with
          | none => simp only [hn] at h; cases h; rfl
          | some n =>
              simp only [hn] at h
              cases hg : xs.get? n with
              | none => simp only [hg] at h; exact Except.noConfusion h
              | some v => simp only [hg] at h; exact ih v e h
      | null => simp only [pathGet] at h; cases h; rfl
      | bool b => simp only [pathGet] at h; cases h; rfl
      | num n => simp only [pathGet] at h; cases h; rfl
      | str t => simp only [pathGet] at h; cases h; rfl

/-- The path resolver's only write error is PathConflict. -/
theorem pathSet_error (p : List String) : ∀ (d v : Json) (e : MigError),
    pathSet d p v = .error e → e = .PathConflict := by
  induction p with
  | nil => intro d v e h; rw [pathSet_nil] at h; exact Except.noConfusion h
  | cons s rest ih =>
      intro d v e h
      cases d with
      | obj fs =>
          simp only [pathSet] at h
          cases hl : lookupField fs s with
          | some old =>
              simp only [hl] at h
              cases hw : pathSet old rest v with
              | error e1 => simp only [hw] at h; cases h; exact ih old v _ hw
              | ok w => simp only [hw] at h; exact Except.noConfusion h
          | none =>
              simp only [hl] at h
              cases hw : pathSet (.obj []) rest v with
              | error e1 => simp only [hw] at h; cases h; exact ih _ v _ hw
              | ok w => simp only [hw] at h; exact Except.noConfusion h
      | arr xs =>
          simp only [pathSet] at h
          cases hn : parseIndex s with
          | none => simp only [hn] at h; cases h; rfl
          | some n =>
              simp only [hn] at h
              cases hw : pathSet ((xs.get? n).getD (.obj [])) rest v with
              | error e1 => simp only [hw] at h; cases h; exact ih _ v _ hw
              | ok w => simp only [hw] at h; exact Except.noConfusion h
      | null => simp only [pathSet] at h; cases h; rfl
      | bool b => simp only [pathSet] at h; cases h; rfl
      | num n => simp only [pathSet] at h; cases h; rfl
      | str t => simp only [pathSet] at h; cases h; rfl

/-- The path resolver's only delete error is PathConflict. -/
theorem pathDelete_error (p : List String) : ∀ (d : Json) (e : MigError),
    pathDelete d p = .error e → e = .PathConflict := by
  induction p with
  | nil => intro d e h; rw [pathDelete_nil] at h; exact Except.noConfusion h
  | cons s rest ih =>
      intro d e h
      cases d with
      | obj fs =>
          cases rest with
          | nil => simp only [pathDelete] at h; exact Except.noConfusion h
          | cons r rest' =>
              simp only [pathDelete] at h
              cases hl : lookupField fs s with
              | none => simp only [hl] at h; exact Except.noConfusion h
              | some v =>
                  simp only [hl] at h
                  cases hw : pathDelete v (r :: rest') with
                  | error e1 => simp only [hw] at h; cases h; exact ih v _ hw
                  | ok w => simp only [hw] at h; exact Except.noConfusion h
      | arr xs =>
          cases rest with
          | nil =>
              simp only [pathDelete] at h
              cases hn : parseIndex s with
              | none => simp only [hn] at h; cases h; rfl
              | some n => simp only [hn] at h; exact Except.noConfusion h
          | cons r rest' =>
              simp only [pathDelete] at h
              cases hn : parseIndex s with
              | none => simp only [hn] at h; cases h; rfl
              | some n =>
                  simp only [hn] at h
                  cases hg : xs.get? n with
                  | none => simp only [hg] at h; exact Except.noConfusion h
                  | some v =>
                      simp only [hg] at h
                      cases hw : pathDelete v (r :: rest') with
                      | error e1 => simp only [hw] at h; cases h; exact ih v _ hw
                      | ok w => simp only [hw] at h; exact Except.noConfusion h
      | null => simp only [pathDelete] at h; cases h; rfl
      | bool b => simp only [pathDelete] at h; cases h; rfl
      | num n => simp only [pathDelete] at h; cases h; rfl
      | str t => simp only [pathDelete] at h; cases h; rfl

/-- The operation executor's only error is PathConflict. -/
theorem applyOp_error (d : Json) (op : Op) (e : MigError)
    (h : applyOp d op = .error e) : e = .PathConflict := by
  cases op with
  | rename_key p key =>
      simp only [applyOp] at h
      cases hg : pathGet d p with
      | error e1 => simp only [hg] at h; cases h; exact pathGet_error p d _ hg
      | ok o =>
          cases o with
          | none => simp only [hg] at h; exact Except.noConfusion h
          | some v =>
              simp only [hg] at h
              cases hd : pathDelete d p with
              | error e1 => simp only [hd] at h; cases h; exact pathDelete_error p d _ hd
              | ok d1 => simp only [hd] at h; exact pathSet_error _ d1 v e h
  | move p dest =>
      simp only [applyOp] at h
      cases hg : pathGet d p with
      | error e1 => simp only [hg] at h; cases h; exact pathGet_error p d _ hg
      | ok o =>
          cases o with
          | none => simp only [hg] at h; exact Except.noConfusion h
          | some v =>
              simp only [hg] at h
              cases hd : pathDelete d p with
              | error e1 => simp only [hd] at h; cases h; exact pathDelete_error p d _ hd
              | ok d1 => simp only [hd] at h; exact pathSet_error dest d1 v e h
  | map p tbl =>
      simp only [applyOp] at h
      cases hg : pathGet d p with
      | error e1 => simp only [hg] at h; cases h; exact pathGet_error p d _ hg
      | ok o =>
          cases o with
          | none => simp only [hg] at h; exact Except.noConfusion h
          | some v =>
              simp only [hg] at h
              cases ht : lookupTable tbl v with
              | none => simp only [ht] at h; exact Except.noConfusion h
              | some w => simp only [ht] at h; exact pathSet_error p d w e h
  | remove p =>
      simp only [applyOp] at h
      exact pathDelete_error p d e h
  | set p v =>
      simp only [applyOp] at h
      exact pathSet_error p d v e h

/-- Applying a patch's operation list can only fail with PathConflict. -/
theorem applyOps_error (ops : List Op) : ∀ (d : Json) (e : MigError),
    applyOps ops d = .error e → e = .PathConflict := by
  induction ops with
  | nil => intro d e h; simp only [applyOps] at h; exact Except.noConfusion h
  | cons op rest ih =>
      intro d e h
      simp only [applyOps] at h
      cases ha : applyOp d op with
      | error e1 => simp only [ha] at h; cases h; exact applyOp_error d op _ ha
      | ok d1 => simp only [ha] at h; exact ih d1 e h

/-- C6: PathConflict is the only hard failure of operation application: any
error from applying a patch's operations is PathConflict; it is raised when
path resolution meets a present non-container at a non-final segment, and
when a non-numeric segment targets a sequence index; it aborts the whole
in-progress patch (the document having possibly been partially modified by
the earlier operations); and no other error condition aborts a patch. -/
theorem pathConflict_only_failure (ops : List Op) (d : Json) (e : MigError)
    (h : applyOps ops d = .error e) :
    e = .PathConflict ∧
    applyOp conflictScalarDoc (.set ["a", "b"] (.str "x")) = .error .PathConflict ∧
    applyOp conflictArrDoc (.set ["xs", "foo"] (.num 2)) = .error .PathConflict ∧
    applyOps [.set ["ok"] (.num 1), .set ["a", "b"] (.num 2)] conflictScalarDoc
      = .error .PathConflict ∧
    applyOp conflictScalarDoc (.set ["ok"] (.num 1))
      = .ok (.obj [("a", .num 5), ("ok", .num 1)]) :=
  ⟨applyOps_error ops d e h, rfl, rfl, rfl, rfl⟩

/-- Witness for C6: the only-PathConflict theorem applied at a concretely
failing patch. -/
theorem pathConflict_only_failure_witness :
    applyOps [.set ["a", "b"] (.num 2)] conflictScalarDoc = .error .PathConflict ∧
    MigError.PathConflict = .PathConflict :=
  ⟨rfl, (pathConflict_only_failure [.set ["a", "b"] (.num 2)] conflictScalarDoc
      .PathConflict rfl).1⟩

/-- C4 counterexample: migrating the empty document (a Document missing
every optional field) populates the set-defaulted field AND the version tag
stamped by the orchestrator, so the result is not the document holding only
the set-defaulted field — a field beyond the set-defaulted ones appears. -/
theorem set_defaults_counterexample :
    migrate testCfg (.obj []) = .ok minResult ∧
    jget2 minResult "metadata" "schema_version" = some (.str "0.1.0") ∧
    migrate testCfg (.obj [])
      ≠ .ok (.obj [("sample", .obj [("physical_form", .str "")])]) := by
  refine ⟨rfl, rfl, ?_⟩
  intro h
  rw [show migrate testCfg (.obj []) = .ok minResult from rfl] at h
  exact Json.ne_of_beq_false minResult
    (.obj [("sample", .obj [("physical_form", .str "")])]) rfl rfl (Except.ok.inj h)

/-- C4 (amended): the set operation writes its literal value at the target
path unconditionally — whenever the write succeeds the value is readable at
that path, overwriting any present value and creating the path if absent —
and migrating a Document missing every optional field produces no errors and
yields exactly the set-defaulted fields of the applicable patches plus the
version tag stamped by the orchestrator, and no other fields. -/
theorem set_unconditional_and_min_migration (d : Json) (p : List String) (v d1 : Json)
    (h : pathSet d p v = .ok d1) :
    pathGet d1 p = .ok (some v) ∧
    applyOp d (.set p v) = .ok d1 ∧
    migrate testCfg (.obj []) = .ok minResult := by
  refine ⟨pathGet_pathSet p d v d1 h, ?_, rfl⟩
  simp only [applyOp]
  exact h

/-- Witness for C4: overwriting the present numeric diameter with a string
via set. -/
theorem set_unconditional_witness :
    pathGet (.obj [("nmr_tube", .obj [("diameter", .str "3 mm")])]) ["nmr_tube", "diameter"]
      = .ok (some (.str "3 mm")) ∧
    applyOp diamNumDoc (.set ["nmr_tube", "diameter"] (.str "3 mm"))
      = .ok (.obj [("nmr_tube", .obj [("diameter", .str "3 mm")])]) ∧
    migrate testCfg (.obj []) = .ok minResult :=
  set_unconditional_and_min_migration diamNumDoc ["nmr_tube", "diameter"] (.str "3 mm")
    (.obj [("nmr_tube", .obj [("diameter", .str "3 mm")])]) rfl

/-- A truthy nested read implies the outer field holds a (truthy) object. -/
theorem jget_truthy_of_jget2_truthy (d : Json) (k1 k2 : String)
    (h : truthy (jget2 d k1 k2) = true) : truthy (jget d k1) = true := by
  unfold jget2 at h
  split at h
  next fs heq => rw [heq]; rfl
  next => exact Bool.noConfusion h

/-- C9: FileManager.ejectSample is idempotent: for every stored sample whose
(migrated) document already carries a truthy metadata.ejected_timestamp,
ejectSample returns true without modifying the state — the file is not
rewritten — so ejecting a sample twice leaves ejected_timestamp equal to the
value set by the first ejection. -/
theorem ejectSample_idempotent (st : FMState) (name now : String) (data : Json)
    (h1 : readSample st name = .ok data)
    (h2 : truthy (jget2 data "metadata" "ejected_timestamp") = true) :
    ejectSample st name now = .ok (st, true) := by
  have hm : truthy (jget data "metadata") = true :=
    jget_truthy_of_jget2_truthy data "metadata" "ejected_timestamp" h2
  have he : ensureMetadata data = .ok data := by
    unfold ensureMetadata
    rw [hm, if_pos rfl]
  unfold ejectSample
  simp only [h1, he, h2]
  rfl

/-- Witness for C9: ejecting an already-ejected stored sample changes
nothing. -/
theorem ejectSample_idempotent_witness :
    ejectSample ejectedSt "f.json" "T9" = .ok (ejectedSt, true) :=
  ejectSample_idempotent ejectedSt "f.json" "T9" ejectedDoc rfl rfl

/-- Assigning a metadata field makes it readable there. -/
theorem metaSet_get (d : Json) (k : String) (v : Json) (d1 : Json)
    (h : metaSet d k v = .ok d1) : jget2 d1 "metadata" k = some v := by
  cases d with
  | obj fs =>
      simp only [metaSet] at h
      cases hl : lookupField fs "metadata" with
      | none => simp only [hl] at h; exact Except.noConfusion h
      | some m =>
          cases m with
          | obj ms =>
              simp only [hl] at h
              cases h
              simp [jget2, jget, lookupField_setField]
          | null => simp only [hl] at h; exact Except.noConfusion h
          | bool b => simp only [hl] at h; exact Except.noConfusion h
          | num n => simp only [hl] at h; exact Except.noConfusion h
          | str s => simp only [hl] at h; exact Except.noConfusion h
          | arr xs => simp only [hl] at h; exact Except.noConfusion h
  | null => exact Except.noConfusion h
  | bool b => exact Except.noConfusion h
  | num n => exact Except.noConfusion h
  | str s => exact Except.noConfusion h
  | arr xs => exact Except.noConfusion h

/-- Assigning a metadata field leaves the other metadata fields unchanged. -/
theorem metaSet_get_ne (d : Json) (k : String) (v : Json) (d1 : Json) (k' : String)
    (h : metaSet d k v = .ok d1) (hne : k' ≠ k) :
    jget2 d1 "metadata" k' = jget2 d "metadata" k' := by
  cases d with
  | obj fs =>
      simp only [metaSet] at h
      cases hl : lookupField fs "metadata" with
      | none => simp only [hl] at h; exact Except.noConfusion h
      | some m =>
          cases m with
          | obj ms =>
              simp only [hl] at h
              cases h
              simp [jget2, jget, hl, lookupField_setField,
                    lookupField_setField_ne ms k k' v hne]
          | null => simp only [hl] at h; exact Except.noConfusion h
          | bool b => simp only [hl] at h; exact Except.noConfusion h
          | num n => simp only [hl] at h; exact Except.noConfusion h
          | str s => simp only [hl] at h; exact Except.noConfusion h
          | arr xs => simp only [hl] at h; exact Except.noConfusion h
  | null => exact Except.noConfusion h
  | bool b => exact Except.noConfusion h
  | num n => exact Except.noConfusion h
  | str s => exact Except.noConfusion h
  | arr xs => exact Except.noConfusion h

/-- The metadata-ensuring step never changes what a nested metadata read
yields: it only replaces a falsy (hence non-object) metadata with `{}`. -/
theorem ensureMetadata_jget2 (data d0 : Json) (k : String)
    (h : ensureMetadata data = .ok d0) :
    jget2 d0 "metadata" k = jget2 data "metadata" k := by
  unfold ensureMetadata at h
  split at h
  next ht => cases h; rfl
  next ht =>
    cases data with
    | obj fs =>
        cases h
        simp only [jget2, jget, lookupField_setField]
        cases hl : lookupField fs "metadata" with
        | none => simp [lookupField]
        | some m =>
            cases m with
            | obj ms =>
                exact absurd (show truthy (jget (.obj fs) "metadata") = true by
                  simp [jget, hl, truthy]) ht
            | null => simp [lookupField]
            | bool b => simp [lookupField]
            | num n => simp [lookupField]
            | str s => simp [lookupField]
            | arr xs => simp [lookupField]
    | null => exact Except.noConfusion h
    | bool b => exact Except.noConfusion h
    | num n => exact Except.noConfusion h
    | str s => exact Except.noConfusion h
    | arr xs => exact Except.noConfusion h

/-- What the writeSample stamping step guarantees about the stored document:
schema_version and modified_timestamp are stamped unconditionally; a truthy
created_timestamp is preserved, a falsy one is initialized to the write
time. -/
theorem writeSampleDoc_stamps (now : String) (data dw : Json)
    (h : writeSampleDoc now data = .ok dw) :
    jget2 dw "metadata" "schema_version" = some (.str "0.1.0") ∧
    jget2 dw "metadata" "modified_timestamp" = some (.str now) ∧
    (truthy (jget2 data "metadata" "created_timestamp") = true →
      jget2 dw "metadata" "created_timestamp" = jget2 data "metadata" "created_timestamp") ∧
    (truthy (jget2 data "metadata" "created_timestamp") = false →
      jget2 dw "metadata" "created_timestamp" = some (.str now)) := by
  unfold writeSampleDoc at h
  cases he : ensureMetadata data with
  | error e => simp only [he] at h; exact Except.noConfusion h
  | ok d0 =>
      simp only [he] at h
      have hj : ∀ k1, jget2 d0 "metadata" k1 = jget2 data "metadata" k1 :=
        fun k1 => ensureMetadata_jget2 data d0 k1 he
      cases hc : truthy (jget2 d0 "metadata" "created_timestamp") with
      | true =>
          rw [hc, if_pos rfl] at h
          cases hm2 : metaSet d0 "modified_timestamp" (.str now) with
          | error e => simp only [hm2] at h; exact Except.noConfusion h
          | ok d2 =>
              simp only [hm2] at h
              refine ⟨metaSet_get d2 _ _ dw h, ?_, ?_, ?_⟩
              · rw [metaSet_get_ne d2 _ _ dw "modified_timestamp" h (by decide)]
                exact metaSet_get d0 _ _ d2 hm2
              · intro _
                rw [metaSet_get_ne d2 _ _ dw "created_timestamp" h (by decide),
                    metaSet_get_ne d0 _ _ d2 "created_timestamp" hm2 (by decide)]
                exact hj _
              · intro hf
                rw [hj _] at hc
                rw [hf] at hc
                exact Bool.noConfusion hc
      | false =>
          rw [hc, if_neg (by decide)] at h
          cases hm1 : metaSet d0 "created_timestamp" (.str now) with
          | error e => simp only [hm1] at h; exact Except.noConfusion h
          | ok d1 =>
              simp only [hm1] at h
              cases hm2 : metaSet d1 "modified_timestamp" (.str now) with
              | error e => simp only [hm2] at h; exact Except.noConfusion h
              | ok d2 =>
                  simp only [hm2] at h
                  refine ⟨metaSet_get d2 _ _ dw h, ?_, ?_, ?_⟩
                  · rw [metaSet_get_ne d2 _ _ dw "modified_timestamp" h (by decide)]
                    exact metaSet_get d1 _ _ d2 hm2
                  · intro htr
                    rw [hj _] at hc
                    rw [htr] at hc
                    exact Bool.noConfusion hc
                  · intro _
                    rw [metaSet_get_ne d2 _ _ dw "created_timestamp" h (by decide),
                        metaSet_get_ne d1 _ _ d2 "created_timestamp" hm2 (by decide)]
                    exact metaSet_get d0 _ _ d1 hm1

/-- C10 counterexample: writeSample with a pre-existing but empty (falsy)
created_timestamp overwrites it with the write time — the code tests
truthiness, not absence — so "a pre-existing created_timestamp is preserved
unchanged (initialized only when absent)" fails as stated. -/
theorem writeSample_created_counterexample :
    writeSample wsState "f.json" blankCreatedDoc "T1"
      = .ok { files := [("f.json", stampedBlankDoc)], migrations := none } ∧
    jget2 blankCreatedDoc "metadata" "created_timestamp" = some (.str "") ∧
    jget2 stampedBlankDoc "metadata" "created_timestamp" = some (.str "T1") ∧
    jget2 stampedBlankDoc "metadata" "created_timestamp"
      ≠ jget2 blankCreatedDoc "metadata" "created_timestamp" := by
  refine ⟨rfl, rfl, rfl, ?_⟩
  intro h
  rw [show jget2 stampedBlankDoc "metadata" "created_timestamp" = some (.str "T1") from rfl,
      show jget2 blankCreatedDoc "metadata" "created_timestamp" = some (.str "") from rfl] at h
  exact Json.ne_of_beq_false (.str "T1") (.str "") rfl rfl (Option.some.inj h)

/-- C10 (amended): every successful FileManager.writeSample call
unconditionally stamps the stored document's metadata.schema_version to
"0.1.0" and sets metadata.modified_timestamp to the time of the write —
regardless of whether the data was migrated or what version it previously
carried — while a pre-existing truthy (non-empty) created_timestamp is
preserved unchanged; created_timestamp is initialized to the write time when
it is absent or falsy (the code tests truthiness, not mere absence). -/
theorem writeSample_stamps (st : FMState) (name now : String) (data : Json) (st1 : FMState)
    (h : writeSample st name data now = .ok st1) :
    ∃ dw, lookupField st1.files name = some dw ∧
      jget2 dw "metadata" "schema_version" = some (.str "0.1.0") ∧
      jget2 dw "metadata" "modified_timestamp" = some (.str now) ∧
      (truthy (jget2 data "metadata" "created_timestamp") = true →
        jget2 dw "metadata" "created_timestamp" = jget2 data "metadata" "created_timestamp") ∧
      (truthy (jget2 data "metadata" "created_timestamp") = false →
        jget2 dw "metadata" "created_timestamp" = some (.str now)) := by
  unfold writeSample at h
  cases hw : writeSampleDoc now data with
  | error e => simp only [hw] at h; exact Except.noConfusion h
  | ok dw =>
      simp only [hw] at h
      cases h
      obtain ⟨h1, h2, h3, h4⟩ := writeSampleDoc_stamps now data dw hw
      exact ⟨dw, by simp [lookupField_setField], h1, h2, h3, h4⟩

/-- Witness for C10: a concrete write whose document carried an older
schema_version and a truthy created_timestamp; the version and modification
time are restamped while the creation time survives. -/
theorem writeSample_stamps_witness :
    ∃ dw, lookupField c10st1.files "g.json" = some dw ∧
      jget2 dw "metadata" "schema_version" = some (.str "0.1.0") ∧
      jget2 dw "metadata" "modified_timestamp" = some (.str "T5") ∧
      (truthy (jget2 c10doc "metadata" "created_timestamp") = true →
        jget2 dw "metadata" "created_timestamp"
          = jget2 c10doc "metadata" "created_timestamp") ∧
      (truthy (jget2 c10doc "metadata" "created_timestamp") = false →
        jget2 dw "metadata" "created_timestamp" = some (.str "T5")) :=
  writeSample_stamps wsState "g.json" "T5" c10doc c10st1 rfl
